import Mathlib

/-!
Verification development for the rssbot repository (Go).

The development shallowly embeds the feed-synchronization core
(`processFeed` in the main package) and the webhook helpers
(`Hex2int`, embed construction) as executable Lean definitions.

Modelling conventions:
* Go `time.Time` values enter the program logic only through `.Unix()`
  comparisons, so timestamps are modelled as `Int` (Unix seconds).
* Go strings are byte strings; descriptions are modelled as `List Char`
  with one `Char` per byte (exact for the ASCII data in question), so that
  Go's byte-level `len`/slicing corresponds to `List.length`/`List.take`.
* Effects (webhook sends, the 100 ms `time.Sleep` after each send) are
  recorded as an event trace; the HTTP outcome of a send is an oracle
  parameter since it does not influence control flow.
-/

namespace Rssbot

/-- Unix-seconds timestamp, the granularity at which `processFeed` compares
`time.Time` values (it always compares via `.Unix()`). -/
abbrev Timestamp := Int

/-- Feed configuration and watermarks, from `type Feed struct` in the main
package (`Hooks`, `Color`, `LastPublished`, `LastRun`, `LastUpdated`,
`Periode`, `URL`). -/
structure Feed where
  hooks : List String
  color : String
  lastPublished : Timestamp
  lastRun : Timestamp
  lastUpdated : Timestamp
  periode : Int
  url : String
  deriving DecidableEq

/-- One parsed feed entry (gofeed `Item`): title, link, publish timestamp
(`PublishedParsed`, assumed present as the code dereferences it), HTML
description, and the optional structured image URL (`Item.Image.URL`). -/
structure Item where
  title : String
  link : String
  published : Timestamp
  description : String
  image : Option String
  deriving DecidableEq

/-- A fetched feed document (gofeed `Feed`): feed-level updated timestamp
(`UpdatedParsed`, assumed present as the code dereferences it) and the list
of entries. -/
structure RSSFeed where
  updated : Timestamp
  items : List Item
  deriving DecidableEq

/-- Outcome of `gofeed.NewParser().ParseURLWithContext`: either an error
(network failure, parse failure, or the 8-second context timeout) or a
parsed document. -/
inductive FetchResult where
  | failure
  | success (doc : RSSFeed)
  deriving DecidableEq

/- ### Hex2int (src/webhook/utils.go) -/

/-- Value of one hex digit as accepted by Go's `strconv.ParseUint` with
base 16: `0-9`, `a-f`, `A-F`; any other byte is a syntax error. -/
def hexVal (c : Char) : Option Nat :=
  if '0' ≤ c ∧ c ≤ '9' then some (c.toNat - '0'.toNat)
  else if 'a' ≤ c ∧ c ≤ 'f' then some (c.toNat - 'a'.toNat + 10)
  else if 'A' ≤ c ∧ c ≤ 'F' then some (c.toNat - 'A'.toNat + 10)
  else none

/-- Accumulating hex-digit parser: fails on the first non-hex byte. -/
def parseHexNat (acc : Nat) : List Char → Option Nat
  | [] => some acc
  | c :: cs =>
    match hexVal c with
    | some d => parseHexNat (acc * 16 + d) cs
    | none => none

/-- Go's `strconv.ParseInt(s, 16, 64)`: empty input is a syntax error; an
optional leading sign; then a nonempty run of hex digits; magnitudes
outside the int64 range are a range error (the caller treats every error
alike). -/
def parseInt64Hex (cs : List Char) : Option Int :=
  let signed : Bool × List Char :=
    match cs with
    | '+' :: rest => (false, rest)
    | '-' :: rest => (true, rest)
    | _ => (false, cs)
  match signed.2 with
  | [] => none
  | ds =>
    match parseHexNat 0 ds with
    | none => none
    | some n =>
      if signed.1 then
        if n ≤ 2 ^ 63 then some (-(n : Int)) else none
      else
        if n < 2 ^ 63 then some (n : Int) else none

/-- Go's `strings.Replace(s, "0x", "", -1)`: remove every non-overlapping
occurrence of `0x`, scanning left to right. -/
def replace0x : List Char → List Char
  | '0' :: 'x' :: rest => replace0x rest
  | c :: rest => c :: replace0x rest
  | [] => []

/-- Go's `strings.TrimPrefix(s, "#")`: drop one leading `#` if present. -/
def trimHash : List Char → List Char
  | '#' :: rest => rest
  | l => l

/-- The cleaning-plus-parsing pipeline inside `Hex2int`. -/
def hexParse (s : String) : Option Int :=
  parseInt64Hex (trimHash (replace0x s.data))

/-- `webhook.Hex2int` (src/webhook/utils.go lines 10-21): strip `0x`
occurrences, trim a `#` marker, parse base-16 into int64; every parse
error yields 0 (the error is only logged). -/
def Hex2int (s : String) : Int :=
  match hexParse s with
  | some v => v
  | none => 0

/- ### Sanitizer pipeline (processFeed lines 176, 198-204) -/

/-- Scanner state for the sanitizer model: plain text, inside a tag (with a
flag for an opening `script` tag), or inside script element content. -/
inductive SanMode where
  | text
  | tag (script : Bool)
  | script

/-- Whether the bytes after `<` start a `script` opening tag. -/
def isScriptOpen : List Char → Bool
  | 's' :: 'c' :: 'r' :: 'i' :: 'p' :: 't' :: _ => true
  | _ => false

/-- Whether the bytes after `<` start a `</script` closing tag. -/
def isScriptClose : List Char → Bool
  | '/' :: 's' :: 'c' :: 'r' :: 'i' :: 'p' :: 't' :: _ => true
  | _ => false

/-- Modelled from the spec: `bluemonday.StrictPolicy().Sanitize`, an
external collaborator the spec out-scopes as a pure function whose
contract is that all markup is removed (tags dropped, text kept, script
element content removed entirely). The model drops every `<...>` tag and
the content of `script` elements. -/
def stripHTMLGo : SanMode → List Char → List Char
  | _, [] => []
  | .text, '<' :: rest => stripHTMLGo (.tag (isScriptOpen rest)) rest
  | .text, c :: rest => c :: stripHTMLGo .text rest
  | .tag b, '>' :: rest => stripHTMLGo (if b then .script else .text) rest
  | .tag b, _ :: rest => stripHTMLGo (.tag b) rest
  | .script, '<' :: rest =>
    if isScriptClose rest then stripHTMLGo (.tag false) rest
    else stripHTMLGo .script rest
  | .script, _ :: rest => stripHTMLGo .script rest

/-- Sanitize an HTML fragment to plain text (see `stripHTMLGo`). -/
def stripHTML (l : List Char) : List Char :=
  stripHTMLGo .text l

/-- Emit a run of `pending` consecutive newlines as the regexp
`nl.ReplaceAllString(desc, "\n")` would: a run of three or more newlines
collapses to a single newline, shorter runs pass through. -/
def emitNL (pending : Nat) : List Char :=
  List.replicate (if 3 ≤ pending then 1 else pending) '\n'

/-- One-pass worker for the newline-collapsing regexp replacement,
tracking the current run of newlines. -/
def collapseNLAux : Nat → List Char → List Char
  | pending, [] => emitNL pending
  | pending, '\n' :: rest => collapseNLAux (pending + 1) rest
  | pending, c :: rest => emitNL pending ++ c :: collapseNLAux 0 rest

/-- `nl.ReplaceAllString(desc, "\n")` with `nl = regexp.MustCompile` of
newline runs of length at least three (processFeed line 156, 200). -/
def collapseNL (l : List Char) : List Char :=
  collapseNLAux 0 l

/-- The description-sanitizing pipeline of processFeed lines 198-200:
strict-sanitize, remove tab bytes, collapse newline runs. -/
def sanitizeDesc (l : List Char) : List Char :=
  collapseNL ((stripHTML l).filter (fun c => c ≠ '\t'))

/-- The truncation of processFeed lines 201-204 and 210: cap the sanitized
description at 500 bytes and append the ellipsis marker unconditionally
(`desc[0:cap] + "..."`). -/
def truncDesc (desc : List Char) : List Char :=
  let cap := if desc.length < 500 then desc.length else 500
  desc.take cap ++ "...".data

/- ### Webhook embed model (src/unnamed/part_001) -/

/-- `webhook.TypeRich`. -/
def TypeRich : String := "rich"

/-- `webhook.EmbedImage` restricted to the fields processFeed sets (only
`URL`; the remaining Go fields keep their zero values and carry no
information for the claims). -/
structure EmbedImage where
  url : String
  deriving DecidableEq

/-- `webhook.EmbedThumbnail` restricted to the fields processFeed sets
(`URL`, `Width`, `Height`; unset Go fields are the zero value 0). -/
structure EmbedThumbnail where
  url : String
  width : Int
  height : Int
  deriving DecidableEq

/-- `webhook.EmbedAuthor` restricted to the fields processFeed sets. -/
structure EmbedAuthor where
  name : String
  url : String
  iconURL : String
  deriving DecidableEq

/-- `webhook.Embed` restricted to the fields processFeed sets. The
description is kept as a byte list (see the module conventions). -/
structure Embed where
  title : String
  type : String
  description : List Char
  url : String
  color : Int
  timestamp : Timestamp
  thumbnail : EmbedThumbnail
  image : Option EmbedImage
  author : EmbedAuthor
  deriving DecidableEq

/-- The branding thumbnail literal of processFeed lines 214-218. -/
def defaultThumbnail : EmbedThumbnail :=
  { url := "https://static.mmo-champion.com/images/tranquilizing/logo.png"
    width := 157
    height := 90 }

/-- The branding author literal of processFeed lines 219-223. -/
def defaultAuthor : EmbedAuthor :=
  { name := "By Purple Haze"
    url := "https://purplehazeeu.com"
    iconURL := "https://purplehazeeu.com/wp/wp-content/uploads/2020/09/ph-logo-smal.png" }

/- ### First-image extraction (processFeed lines 189-196) -/

/-- Collect an attribute value up to the closing double quote. -/
def readAttrVal : List Char → List Char
  | [] => []
  | '"' :: _ => []
  | c :: rest => c :: readAttrVal rest

/-- Within an `img` tag, find a `src="..."` attribute before the closing
`>` of the tag. -/
def findSrcInTag : List Char → List Char
  | 's' :: 'r' :: 'c' :: '=' :: '"' :: rest => readAttrVal rest
  | '>' :: _ => []
  | [] => []
  | _ :: rest => findSrcInTag rest

/-- Scan for the first `<img` tag. -/
def firstImgSrcAux : List Char → List Char
  | '<' :: 'i' :: 'm' :: 'g' :: rest => findSrcInTag rest
  | [] => []
  | _ :: rest => firstImgSrcAux rest

/-- Modelled from the spec: the auxiliary extractor of §4.1 — the `src`
attribute of the first `img` element of the unsanitized description HTML,
or the empty string when absent. In the code this is the goquery
traversal of processFeed lines 189-196 (the `EachWithBreak` callback
returns `false`, so only the first `img` element is inspected); goquery
itself is an external collaborator, so the extraction is modelled as a
direct scan. -/
def firstImgSrc (l : List Char) : String :=
  String.mk (firstImgSrcAux l)

/- ### Embed construction (processFeed lines 206-235) -/

/-- The embed built for one entry and one hook, processFeed lines 207-235:
a literal with the branding thumbnail and author; then, in order, the
image block is set when the description-extracted image is nonempty
(line 225), and the thumbnail is overwritten from the entry's structured
image when that is present (line 231). -/
def buildEmbed (feedColor : String) (news : Item) (image : String)
    (desc : List Char) : Embed :=
  let base : Embed :=
    { title := news.title
      type := TypeRich
      description := truncDesc desc
      url := news.link
      color := Hex2int feedColor
      timestamp := news.published
      thumbnail := defaultThumbnail
      image := none
      author := defaultAuthor }
  let withImage : Embed :=
    if image ≠ "" then { base with image := some { url := image } } else base
  match news.image with
  | some u => { withImage with thumbnail := { url := u, width := 0, height := 0 } }
  | none => withImage

/- ### The synchronization trace -/

/-- Observable effects of one synchronization: a webhook send attempt
(`msg.Send()`, recording the hook URL, the embed, the feed's
`lastPublished` at the moment of the send, and the HTTP outcome — which
does not influence control flow, a failure is only logged), and the
unconditional `time.Sleep(100 * time.Millisecond)` that follows every
send attempt. -/
inductive Event where
  | send (hook : String) (emb : Embed) (lpAtSend : Timestamp) (ok : Bool)
  | delay
  deriving DecidableEq

/-- Whether an event is a send attempt. -/
def isSend : Event → Bool
  | .send _ _ _ _ => true
  | .delay => false

/-- The inner destination loop of processFeed lines 205-241: for each hook
in configured order, one send attempt followed by the 100 ms sleep. The
embed and the recorded watermark are those of the current entry (the
watermark was assigned on line 181, before this loop). -/
def entryEvents (color : String) (o : Item → String → Bool) (news : Item) :
    List String → List Event
  | [] => []
  | h :: hs =>
    Event.send h
        (buildEmbed color news (firstImgSrc news.description.data)
          (sanitizeDesc news.description.data))
        news.published (o news h)
      :: Event.delay :: entryEvents color o news hs

/-- The entry loop of processFeed lines 179-243, threading the
`lastPublished` watermark: an entry is dispatched exactly when its publish
timestamp strictly exceeds the current watermark (line 180), in which case
the watermark is first advanced to that timestamp (line 181) and then the
destination loop runs. (The goquery parse of the description on line 184
reads from an in-memory string and cannot fail, so the `continue` on
line 187 is dead and not modelled.) Returns the final watermark and the
event trace. -/
def dispatchItems (hooks : List String) (color : String)
    (o : Item → String → Bool) : List Item → Timestamp → Timestamp × List Event
  | [], lp => (lp, [])
  | news :: rest, lp =>
    if lp < news.published then
      let r := dispatchItems hooks color o rest news.published
      (r.1, entryEvents color o news hooks ++ r.2)
    else
      dispatchItems hooks color o rest lp

/-- Insert an item into a list sorted by ascending publish timestamp. -/
def insertItem (x : Item) : List Item → List Item
  | [] => [x]
  | y :: ys =>
    if x.published ≤ y.published then x :: y :: ys else y :: insertItem x ys

/-- Modelled from the spec: `sort.Sort(rssFeed)` on line 177 sorts the
fetched document once per its natural comparison (gofeed orders items
ascending by publish timestamp). Go's `sort.Sort` produces an unspecified
sorted permutation; the model fixes insertion sort. -/
def sortItems : List Item → List Item
  | [] => []
  | x :: xs => insertItem x (sortItems xs)

/-- `processFeed` (src/unnamed/part_000 lines 158-285) as a function from
the pre-state, the attempt time (`time.Now()` on line 284), the fetch
outcome and the send-outcome oracle to the post-state and the event
trace. On fetch error the function returns on line 174 before touching
any field. Otherwise, when the stored `lastUpdated` is strictly older than
the document's feed-level timestamp (line 178, Unix-seconds comparison),
the sorted entries are dispatched, `lastUpdated` is set to the document
timestamp (line 244) and `lastRun` to the attempt time (line 284); when
the guard fails only `lastRun` is set. -/
def processFeed (feed : Feed) (now : Timestamp) (fetch : FetchResult)
    (o : Item → String → Bool) : Feed × List Event :=
  match fetch with
  | .failure => (feed, [])
  | .success doc =>
    if feed.lastUpdated < doc.updated then
      let r := dispatchItems feed.hooks feed.color o (sortItems doc.items)
        feed.lastPublished
      ({ feed with
          lastPublished := r.1
          lastUpdated := doc.updated
          lastRun := now }, r.2)
    else
      ({ feed with lastRun := now }, [])

/-- A sequence of synchronization attempts on one feed: each attempt
supplies its wall-clock time, fetch outcome and send oracle, and the
post-state of one attempt is the pre-state of the next. -/
def runSyncs : Feed → List (Timestamp × FetchResult × (Item → String → Bool)) → Feed
  | feed, [] => feed
  | feed, (now, fetch, o) :: rest => runSyncs (processFeed feed now fetch o).1 rest

/-- The nested entry-then-destination trace for a list of dispatched
entries: for each entry in order, the full destination loop. Used to state
the order of the trace produced by `dispatchItems`. -/
def expectedEvents (hooks : List String) (color : String)
    (o : Item → String → Bool) : List Item → List Event
  | [] => []
  | news :: rest =>
    entryEvents color o news hooks ++ expectedEvents hooks color o rest

/- ### Concrete instances for witnesses and counterexamples -/

/-- A minimal feed with one destination hook and zeroed watermarks. -/
def exFeed : Feed :=
  { hooks := ["h"]
    color := ""
    lastPublished := 0
    lastRun := 0
    lastUpdated := 0
    periode := 0
    url := "" }

/-- The minimal feed with two destination hooks. -/
def exFeed2 : Feed := { exFeed with hooks := ["h1", "h2"] }

/-- The minimal feed with a stored `lastUpdated` of 9. -/
def exFeedNoUpd : Feed := { exFeed with lastUpdated := 9 }

/-- The minimal feed with a stored `lastRun` of 42. -/
def exFeedRun42 : Feed := { exFeed with lastRun := 42 }

/-- An entry with the given publish timestamp and title and an empty
description. -/
def exItem (t : Timestamp) (name : String) : Item :=
  { title := name
    link := "l"
    published := t
    description := ""
    image := none }

/-- An entry carrying both a structured image (`S`) and a description
containing an `img` element (`D`). -/
def exItemImg : Item :=
  { title := "t"
    link := "l"
    published := 5
    description := "<img src=\"D\">"
    image := some "S" }

/-- A send-outcome oracle under which every send succeeds. -/
def exOutcome : Item → String → Bool := fun _ _ => true

/- ### Claims C7, C9, C10 -/

/-- C7 counterexample: the claim names 1,816,476 as the common decoded
value, but `Hex2int "#1abc9c"` evaluates to 1,752,220 (which is the true
value of 0x1ABC9C), so the claimed decimal constant is wrong. -/
theorem hex2int_claimed_value_refuted :
    Hex2int "#1abc9c" = 1752220 ∧ (1752220 : Int) ≠ 1816476 := by
  constructor
  · rfl
  · decide

/-- C7 (amended): `Hex2int` maps `"#1abc9c"`, `"1abc9c"` and `"0x1abc9c"`
to one and the same integer, namely 1,752,220 (0x1ABC9C); `"zzzzzz"` is
not valid hexadecimal and decodes to 0; and in general every input whose
cleaned form fails to parse as hexadecimal yields 0 rather than an
error. -/
theorem hex2int_common_value :
    (Hex2int "#1abc9c" = 1752220 ∧ Hex2int "1abc9c" = 1752220 ∧
      Hex2int "0x1abc9c" = 1752220 ∧ Hex2int "zzzzzz" = 0) ∧
    (∀ s : String, hexParse s = none → Hex2int s = 0) := by
  refine ⟨⟨rfl, rfl, rfl, rfl⟩, ?_⟩
  intro s h
  unfold Hex2int
  rw [h]

/-- C7 witness: the invalid-hex branch at the concrete input `"zzzzzz"`. -/
theorem hex2int_common_value_witness :
    hexParse "zzzzzz" = none ∧ Hex2int "zzzzzz" = 0 :=
  ⟨by decide, hex2int_common_value.2 "zzzzzz" (by decide)⟩

/-- C9: sanitizing the description `"a<br>b\n\n\n\nc<script>x</script>"`
yields exactly `"ab\nc"` (markup removed, script content removed, tabs
removed, newline runs of three or more collapsed to one); and every
sanitized description longer than 500 bytes is rendered as exactly its
first 500 bytes followed by the ellipsis marker `"..."`. -/
theorem sanitize_example_and_truncation :
    sanitizeDesc "a<br>b\n\n\n\nc<script>x</script>".data = "ab\nc".data ∧
    ∀ d : List Char, 500 < d.length → truncDesc d = d.take 500 ++ "...".data := by
  constructor
  · decide
  · intro d h
    unfold truncDesc
    rw [if_neg (by omega)]

/-- C9 witness: a 501-byte description is truncated to its first 500 bytes
plus the ellipsis marker. -/
theorem sanitize_example_and_truncation_witness :
    500 < (List.replicate 501 'a').length ∧
    truncDesc (List.replicate 501 'a') =
      (List.replicate 501 'a').take 500 ++ "...".data :=
  ⟨by rw [List.length_replicate]; omega,
    sanitize_example_and_truncation.2 (List.replicate 501 'a')
      (by rw [List.length_replicate]; omega)⟩

/-- C10: the ellipsis marker is appended to every rendered description
unconditionally — every description of at most 500 bytes renders as itself
followed by `"..."` even though no truncation took place, every rendered
description ends in the marker, and the empty description renders as
exactly `"..."`. -/
theorem ellipsis_unconditional :
    truncDesc "".data = "...".data ∧
    (∀ d : List Char, ∃ p, truncDesc d = p ++ "...".data) ∧
    (∀ d : List Char, d.length ≤ 500 → truncDesc d = d ++ "...".data) := by
  refine ⟨rfl, fun d => ⟨_, rfl⟩, fun d h => ?_⟩
  unfold truncDesc
  by_cases h' : d.length < 500
  · rw [if_pos h']
    show d.take d.length ++ "...".data = d ++ "...".data
    rw [List.take_length]
  · rw [if_neg h']
    show d.take 500 ++ "...".data = d ++ "...".data
    rw [List.take_of_length_le h]

/-- C10 witness: a short nonempty description keeps its text and still
receives the ellipsis marker. -/
theorem ellipsis_unconditional_witness :
    "ab".data.length ≤ 500 ∧ truncDesc "ab".data = "ab".data ++ "...".data :=
  ⟨by decide, ellipsis_unconditional.2.2 "ab".data (by decide)⟩

/- ### Insertion-sort lemmas -/

theorem insertItem_mem (x : Item) :
    ∀ (l : List Item) (y : Item), y ∈ insertItem x l ↔ y = x ∨ y ∈ l := by
  intro l
  induction l with
  | nil => intro y; simp [insertItem]
  | cons z zs ih =>
    intro y
    unfold insertItem
    by_cases h : x.published ≤ z.published
    · rw [if_pos h]
      simp [List.mem_cons]
    · rw [if_neg h]
      simp only [List.mem_cons, ih]
      tauto

theorem sortItems_mem :
    ∀ (l : List Item) (y : Item), y ∈ sortItems l ↔ y ∈ l := by
  intro l
  induction l with
  | nil => intro y; simp [sortItems]
  | cons z zs ih =>
    intro y
    simp only [sortItems, insertItem_mem, ih, List.mem_cons]

theorem insertItem_pairwise_le (x : Item) :
    ∀ l : List Item, l.Pairwise (fun a b => a.published ≤ b.published) →
      (insertItem x l).Pairwise (fun a b => a.published ≤ b.published) := by
  intro l
  induction l with
  | nil => intro _; simp [insertItem]
  | cons y ys ih =>
    intro hp
    rw [List.pairwise_cons] at hp
    obtain ⟨hy, hys⟩ := hp
    unfold insertItem
    by_cases h : x.published ≤ y.published
    · rw [if_pos h]
      refine List.Pairwise.cons ?_ (List.Pairwise.cons hy hys)
      intro z hz
      rcases List.mem_cons.mp hz with rfl | hz'
      · exact h
      · exact le_trans h (hy z hz')
    · rw [if_neg h]
      refine List.Pairwise.cons ?_ (ih hys)
      intro z hz
      rcases (insertItem_mem x ys z).mp hz with rfl | hz'
      · exact le_of_not_le h
      · exact hy z hz'

theorem sortItems_pairwise_le :
    ∀ l : List Item,
      (sortItems l).Pairwise (fun a b => a.published ≤ b.published) := by
  intro l
  induction l with
  | nil => exact List.Pairwise.nil
  | cons x xs ih => exact insertItem_pairwise_le x (sortItems xs) ih

theorem insertItem_pairwise_ne (x : Item) :
    ∀ l : List Item, (∀ y ∈ l, x.published ≠ y.published) →
      l.Pairwise (fun a b => a.published ≠ b.published) →
      (insertItem x l).Pairwise (fun a b => a.published ≠ b.published) := by
  intro l
  induction l with
  | nil => intro _ _; simp [insertItem]
  | cons y ys ih =>
    intro hx hp
    rw [List.pairwise_cons] at hp
    obtain ⟨hy, hys⟩ := hp
    unfold insertItem
    by_cases h : x.published ≤ y.published
    · rw [if_pos h]
      exact List.Pairwise.cons hx (List.Pairwise.cons hy hys)
    · rw [if_neg h]
      refine List.Pairwise.cons ?_ ?_
      · intro z hz
        rcases (insertItem_mem x ys z).mp hz with rfl | hz'
        · exact (hx y (List.mem_cons_self y ys)).symm
        · exact hy z hz'
      · exact ih (fun z hz => hx z (List.mem_cons_of_mem y hz)) hys

theorem sortItems_pairwise_ne :
    ∀ l : List Item,
      l.Pairwise (fun a b => a.published ≠ b.published) →
      (sortItems l).Pairwise (fun a b => a.published ≠ b.published) := by
  intro l
  induction l with
  | nil => intro _; exact List.Pairwise.nil
  | cons x xs ih =>
    intro hp
    rw [List.pairwise_cons] at hp
    obtain ⟨hx, hxs⟩ := hp
    exact insertItem_pairwise_ne x (sortItems xs)
      (fun y hy => hx y ((sortItems_mem xs y).mp hy)) (ih hxs)

theorem pairwise_lt_of_le_ne :
    ∀ l : List Item,
      l.Pairwise (fun a b => a.published ≤ b.published) →
      l.Pairwise (fun a b => a.published ≠ b.published) →
      l.Pairwise (fun a b => a.published < b.published) := by
  intro l
  induction l with
  | nil => intro _ _; exact List.Pairwise.nil
  | cons x xs ih =>
    intro hle hne
    rw [List.pairwise_cons] at hle hne ⊢
    exact ⟨fun y hy => lt_of_le_of_ne (hle.1 y hy) (hne.1 y hy), ih hle.2 hne.2⟩

theorem insertItem_countP (p : Item → Bool) (x : Item) :
    ∀ l : List Item, (insertItem x l).countP p = (x :: l).countP p := by
  intro l
  induction l with
  | nil => rfl
  | cons y ys ih =>
    unfold insertItem
    by_cases h : x.published ≤ y.published
    · rw [if_pos h]
    · rw [if_neg h]
      simp only [List.countP_cons, ih]
      omega

theorem sortItems_countP (p : Item → Bool) :
    ∀ l : List Item, (sortItems l).countP p = l.countP p := by
  intro l
  induction l with
  | nil => rfl
  | cons x xs ih =>
    simp only [sortItems, insertItem_countP, List.countP_cons, ih]

/- ### Dispatch-loop lemmas -/

theorem buildEmbed_timestamp (c : String) (news : Item) (i : String)
    (d : List Char) : (buildEmbed c news i d).timestamp = news.published := by
  unfold buildEmbed
  cases news.image <;> by_cases h : i ≠ "" <;> simp [h]

theorem dispatch_fst_mono (hooks : List String) (color : String)
    (o : Item → String → Bool) :
    ∀ (items : List Item) (lp : Timestamp),
      lp ≤ (dispatchItems hooks color o items lp).1 := by
  intro items
  induction items with
  | nil => intro lp; exact le_refl lp
  | cons news rest ih =>
    intro lp
    simp only [dispatchItems]
    by_cases h : lp < news.published
    · rw [if_pos h]
      exact le_trans (le_of_lt h) (ih news.published)
    · rw [if_neg h]
      exact ih lp

theorem entryEvents_send_eq (color : String) (o : Item → String → Bool)
    (news : Item) :
    ∀ (hooks : List String) (hook : String) (emb : Embed) (lp : Timestamp)
      (ok : Bool),
      Event.send hook emb lp ok ∈ entryEvents color o news hooks →
      emb.timestamp = news.published ∧ lp = news.published := by
  intro hooks
  induction hooks with
  | nil => intro _ _ _ _ h; cases h
  | cons hd tl ih =>
    intro hook emb lp ok h
    simp only [entryEvents, List.mem_cons] at h
    rcases h with h | h | h
    · rw [Event.send.injEq] at h
      obtain ⟨-, hemb, hlp, -⟩ := h
      subst hemb
      exact ⟨buildEmbed_timestamp color news _ _, hlp⟩
    · cases h
    · exact ih hook emb lp ok h

theorem dispatch_send_le (hooks : List String) (color : String)
    (o : Item → String → Bool) :
    ∀ (items : List Item) (lp : Timestamp) (hook : String) (emb : Embed)
      (lps : Timestamp) (ok : Bool),
      Event.send hook emb lps ok ∈ (dispatchItems hooks color o items lp).2 →
      emb.timestamp ≤ lps := by
  intro items
  induction items with
  | nil => intro _ _ _ _ _ h; cases h
  | cons news rest ih =>
    intro lp hook emb lps ok h
    simp only [dispatchItems] at h
    by_cases hlt : lp < news.published
    · rw [if_pos hlt] at h
      rcases List.mem_append.mp h with h' | h'
      · obtain ⟨ht, hlp⟩ := entryEvents_send_eq color o news hooks hook emb lps ok h'
        rw [ht, hlp]
      · exact ih news.published hook emb lps ok h'
    · rw [if_neg hlt] at h
      exact ih lp hook emb lps ok h

theorem dispatch_sorted_eq (hooks : List String) (color : String)
    (o : Item → String → Bool) :
    ∀ (items : List Item) (lp : Timestamp),
      items.Pairwise (fun a b => a.published < b.published) →
      (dispatchItems hooks color o items lp).2 =
        expectedEvents hooks color o
          (items.filter (fun i => decide (lp < i.published))) := by
  intro items
  induction items with
  | nil => intro lp _; rfl
  | cons news rest ih =>
    intro lp hp
    rw [List.pairwise_cons] at hp
    obtain ⟨hx, hrest⟩ := hp
    simp only [dispatchItems, List.filter_cons]
    by_cases h : lp < news.published
    · rw [if_pos h]
      rw [if_pos (by exact decide_eq_true h)]
      simp only [expectedEvents]
      have h1 : rest.filter (fun i => decide (news.published < i.published)) = rest :=
        List.filter_eq_self.mpr (fun a ha => decide_eq_true (hx a ha))
      have h2 : rest.filter (fun i => decide (lp < i.published)) = rest :=
        List.filter_eq_self.mpr (fun a ha => decide_eq_true (lt_trans h (hx a ha)))
      rw [ih news.published hrest, h1, h2]
    · rw [if_neg h]
      rw [if_neg (by simpa using h)]
      exact ih lp hrest

theorem entryEvents_send_count (color : String) (o : Item → String → Bool)
    (news : Item) :
    ∀ hooks : List String,
      ((entryEvents color o news hooks).filter isSend).length = hooks.length := by
  intro hooks
  induction hooks with
  | nil => rfl
  | cons hd tl ih =>
    simp [entryEvents, List.filter_cons, isSend, ih]

theorem expectedEvents_send_count (hooks : List String) (color : String)
    (o : Item → String → Bool) :
    ∀ items : List Item,
      ((expectedEvents hooks color o items).filter isSend).length =
        items.length * hooks.length := by
  intro items
  induction items with
  | nil => simp [expectedEvents]
  | cons news rest ih =>
    simp only [expectedEvents, List.filter_append, List.length_append,
      entryEvents_send_count, ih, List.length_cons, Nat.succ_mul]
    omega

/- ### Claims C1 to C6 and C8 -/

theorem processFeed_watermarks_mono (feed : Feed) (now : Timestamp)
    (fetch : FetchResult) (o : Item → String → Bool) :
    feed.lastPublished ≤ (processFeed feed now fetch o).1.lastPublished ∧
    feed.lastUpdated ≤ (processFeed feed now fetch o).1.lastUpdated := by
  cases fetch with
  | failure => exact ⟨le_refl _, le_refl _⟩
  | success doc =>
    simp only [processFeed]
    by_cases h : feed.lastUpdated < doc.updated
    · rw [if_pos h]
      exact ⟨dispatch_fst_mono feed.hooks feed.color o (sortItems doc.items)
        feed.lastPublished, le_of_lt h⟩
    · rw [if_neg h]
      exact ⟨le_refl _, le_refl _⟩

/-- C1: across every sequence of synchronization attempts — whatever mix
of fetch failures and fetched documents, attempt times and send outcomes —
the watermarks `lastPublished` and `lastUpdated` are monotonically
non-decreasing, because every assignment in `processFeed` is guarded by a
strict Unix-seconds comparison against the stored value. -/
theorem watermarks_monotone :
    ∀ (attempts : List (Timestamp × FetchResult × (Item → String → Bool)))
      (feed : Feed),
      feed.lastPublished ≤ (runSyncs feed attempts).lastPublished ∧
      feed.lastUpdated ≤ (runSyncs feed attempts).lastUpdated := by
  intro attempts
  induction attempts with
  | nil => intro feed; exact ⟨le_refl _, le_refl _⟩
  | cons a rest ih =>
    intro feed
    obtain ⟨now, fetch, o⟩ := a
    have h1 := processFeed_watermarks_mono feed now fetch o
    have h2 := ih (processFeed feed now fetch o).1
    exact ⟨le_trans h1.1 h2.1, le_trans h1.2 h2.2⟩

/-- C2: when the fetched document's feed-level updated timestamp is not
newer than the stored `lastUpdated`, no send attempt occurs (the trace is
empty) and the post-state differs from the pre-state only in `lastRun`. -/
theorem noUpdate_only_lastRun (feed : Feed) (now : Timestamp) (doc : RSSFeed)
    (o : Item → String → Bool) (h : ¬ feed.lastUpdated < doc.updated) :
    processFeed feed now (.success doc) o = ({ feed with lastRun := now }, []) := by
  simp only [processFeed]
  rw [if_neg h]

/-- C2 witness: a stored `lastUpdated` of 9 against a document timestamp
of 7 carrying one otherwise-new entry. -/
theorem noUpdate_only_lastRun_witness :
    ¬ exFeedNoUpd.lastUpdated <
        ({ updated := 7, items := [exItem 100 "new"] } : RSSFeed).updated ∧
    processFeed exFeedNoUpd 11
        (.success { updated := 7, items := [exItem 100 "new"] }) exOutcome =
      ({ exFeedNoUpd with lastRun := 11 }, []) :=
  ⟨by decide, noUpdate_only_lastRun exFeedNoUpd 11
    { updated := 7, items := [exItem 100 "new"] } exOutcome (by decide)⟩

/-- C3 counterexample: a document whose two new entries share publish
timestamp 3 (both strictly above the stored `lastPublished` of 0), on a
feed with one hook. The claim predicts N×D = 2×1 = 2 send attempts, but
the trace contains exactly one: after the first entry advances the
watermark to 3, the second entry fails the strict comparison. -/
theorem equal_timestamps_break_nxd :
    (({ updated := 5, items := [exItem 3 "A", exItem 3 "B"] } : RSSFeed).items.filter
        (fun i => decide (exFeed.lastPublished < i.published))).length = 2 ∧
    exFeed.hooks.length = 1 ∧
    ((processFeed exFeed 17
        (.success { updated := 5, items := [exItem 3 "A", exItem 3 "B"] })
        exOutcome).2.filter isSend).length = 1 ∧
    (1 : Nat) ≠ 2 * 1 :=
  ⟨by decide, by decide, by decide, by decide⟩

/-- C3 (amended): for a successful fetch whose document has a feed-level
timestamp newer than the stored `lastUpdated` and whose entries carry
pairwise-distinct publish timestamps, the trace is exactly the nested
entry-then-destination loop over the new entries (entries in ascending
sorted order, destinations in configured hook order, each send attempt
followed by the 100 ms delay), and the number of send attempts is exactly
N×D where N is the number of entries with publish timestamp strictly
greater than the stored `lastPublished` and D the number of hooks. When
publish timestamps collide, only the first entry of each group of equal
timestamps is dispatched. -/
theorem sends_nested_order_and_count (feed : Feed) (now : Timestamp)
    (doc : RSSFeed) (o : Item → String → Bool)
    (hdist : doc.items.Pairwise (fun a b => a.published ≠ b.published))
    (hupd : feed.lastUpdated < doc.updated) :
    (processFeed feed now (.success doc) o).2 =
      expectedEvents feed.hooks feed.color o
        ((sortItems doc.items).filter
          (fun i => decide (feed.lastPublished < i.published))) ∧
    ((processFeed feed now (.success doc) o).2.filter isSend).length =
      (doc.items.filter
          (fun i => decide (feed.lastPublished < i.published))).length *
        feed.hooks.length := by
  have hlt := pairwise_lt_of_le_ne _ (sortItems_pairwise_le doc.items)
    (sortItems_pairwise_ne doc.items hdist)
  have hmain : (processFeed feed now (.success doc) o).2 =
      expectedEvents feed.hooks feed.color o
        ((sortItems doc.items).filter
          (fun i => decide (feed.lastPublished < i.published))) := by
    simp only [processFeed]
    rw [if_pos hupd]
    exact dispatch_sorted_eq feed.hooks feed.color o (sortItems doc.items)
      feed.lastPublished hlt
  refine ⟨hmain, ?_⟩
  rw [hmain, expectedEvents_send_count]
  have hcount : ((sortItems doc.items).filter
        (fun i => decide (feed.lastPublished < i.published))).length =
      (doc.items.filter
        (fun i => decide (feed.lastPublished < i.published))).length := by
    rw [← List.countP_eq_length_filter, ← List.countP_eq_length_filter,
      sortItems_countP]
  rw [hcount]

/-- C3 witness: two entries with distinct timestamps 2 and 1 (unsorted in
the document) on a feed with two hooks: 2×2 send attempts in nested
order. -/
theorem sends_nested_order_and_count_witness :
    (({ updated := 5, items := [exItem 2 "A", exItem 1 "B"] } : RSSFeed).items.Pairwise
        (fun a b => a.published ≠ b.published) ∧
      exFeed2.lastUpdated <
        ({ updated := 5, items := [exItem 2 "A", exItem 1 "B"] } : RSSFeed).updated) ∧
    ((processFeed exFeed2 9
        (.success { updated := 5, items := [exItem 2 "A", exItem 1 "B"] })
        exOutcome).2 =
      expectedEvents exFeed2.hooks exFeed2.color exOutcome
        ((sortItems ({ updated := 5, items := [exItem 2 "A", exItem 1 "B"] } : RSSFeed).items).filter
          (fun i => decide (exFeed2.lastPublished < i.published))) ∧
    ((processFeed exFeed2 9
        (.success { updated := 5, items := [exItem 2 "A", exItem 1 "B"] })
        exOutcome).2.filter isSend).length =
      (({ updated := 5, items := [exItem 2 "A", exItem 1 "B"] } : RSSFeed).items.filter
          (fun i => decide (exFeed2.lastPublished < i.published))).length *
        exFeed2.hooks.length) :=
  ⟨⟨by decide, by decide⟩,
    sends_nested_order_and_count exFeed2 9
      { updated := 5, items := [exItem 2 "A", exItem 1 "B"] } exOutcome
      (by decide) (by decide)⟩

/-- C4: every send attempt in every trace of `processFeed` happens in a
state whose `lastPublished` watermark is already at least the dispatched
entry's publish timestamp (the embed's timestamp): the watermark is
assigned before the destination loop, so no send ever observes
`lastPublished` strictly below its entry's publish time. -/
theorem no_send_before_watermark (feed : Feed) (now : Timestamp)
    (fetch : FetchResult) (o : Item → String → Bool) (hook : String)
    (emb : Embed) (lp : Timestamp) (ok : Bool)
    (hmem : Event.send hook emb lp ok ∈ (processFeed feed now fetch o).2) :
    emb.timestamp ≤ lp := by
  cases fetch with
  | failure => cases hmem
  | success doc =>
    revert hmem
    simp only [processFeed]
    by_cases h : feed.lastUpdated < doc.updated
    · rw [if_pos h]
      intro hmem
      exact dispatch_send_le feed.hooks feed.color o (sortItems doc.items)
        feed.lastPublished hook emb lp ok hmem
    · rw [if_neg h]
      intro hmem
      cases hmem

/-- C4 witness: the single send of a one-entry document is recorded with
the watermark already advanced to the entry's publish timestamp 5. -/
theorem no_send_before_watermark_witness :
    Event.send "h"
        (buildEmbed exFeed.color (exItem 5 "t")
          (firstImgSrc (exItem 5 "t").description.data)
          (sanitizeDesc (exItem 5 "t").description.data)) 5 true ∈
      (processFeed exFeed 9 (.success { updated := 1, items := [exItem 5 "t"] })
        exOutcome).2 ∧
    (buildEmbed exFeed.color (exItem 5 "t")
        (firstImgSrc (exItem 5 "t").description.data)
        (sanitizeDesc (exItem 5 "t").description.data)).timestamp ≤ 5 :=
  ⟨by decide,
    no_send_before_watermark exFeed 9
      (.success { updated := 1, items := [exItem 5 "t"] }) exOutcome "h" _ 5 true
      (by decide)⟩

/-- C5: when the fetch+parse step fails, `processFeed` returns with the
feed record — all three watermarks included — exactly as it was, and an
empty trace: no send attempt occurs. -/
theorem fetchFailure_no_change (feed : Feed) (now : Timestamp)
    (o : Item → String → Bool) :
    processFeed feed now .failure o = (feed, []) := rfl

/-- C6 counterexample: on a fetch failure at attempt time 100, a feed with
stored `lastRun` 42 keeps `lastRun` 42 — the code returns on the error
path before the `lastRun` assignment, so `lastRun` is not updated
"regardless of outcome" as claimed. -/
theorem lastRun_unchanged_on_fetch_failure :
    (processFeed exFeedRun42 100 .failure exOutcome).1.lastRun = 42 ∧
    (42 : Int) ≠ 100 :=
  ⟨rfl, by decide⟩

/-- C6 (amended): `lastRun` is set to the attempt time on every attempt
whose fetch+parse step succeeds (whether or not anything is dispatched),
and is left unchanged on a fetch failure. -/
theorem lastRun_updated_on_successful_fetch (feed : Feed) (now : Timestamp)
    (doc : RSSFeed) (o o' : Item → String → Bool) :
    (processFeed feed now (.success doc) o).1.lastRun = now ∧
    (processFeed feed now .failure o').1.lastRun = feed.lastRun := by
  refine ⟨?_, rfl⟩
  simp only [processFeed]
  by_cases h : feed.lastUpdated < doc.updated
  · rw [if_pos h]
  · rw [if_neg h]

/-- C8 counterexample: an entry carrying both a structured image `S` and a
description-embedded image `D`. The claim says the embed's image block is
set from the structured image; the code instead sets the image block from
the description-extracted image `D` and routes the structured image `S`
into the thumbnail (replacing the branding default). -/
theorem structured_image_sets_thumbnail_not_image :
    exItemImg.image = some "S" ∧
    (processFeed exFeed 7 (.success { updated := 1, items := [exItemImg] })
        exOutcome).2 =
      [Event.send "h"
        { title := "t"
          type := "rich"
          description := "...".data
          url := "l"
          color := 0
          timestamp := 5
          thumbnail := { url := "S", width := 0, height := 0 }
          image := some { url := "D" }
          author := defaultAuthor } 5 true,
        Event.delay] ∧
    (some { url := "D" } : Option EmbedImage) ≠ some { url := "S" } :=
  ⟨rfl, by decide, by decide⟩

/-- C8 (amended): the embed's image block is set from the first image
extracted from the description HTML whenever one exists, regardless of the
structured image; the entry's structured image, when present, replaces the
thumbnail (overriding the branding default), and when it is absent the
thumbnail stays at the branding default. -/
theorem image_block_from_description (c : String) (news : Item) :
    ((buildEmbed c news (firstImgSrc news.description.data)
        (sanitizeDesc news.description.data)).image =
      if firstImgSrc news.description.data = "" then none
      else some { url := firstImgSrc news.description.data }) ∧
    ((buildEmbed c news (firstImgSrc news.description.data)
        (sanitizeDesc news.description.data)).thumbnail =
      match news.image with
      | some u => { url := u, width := 0, height := 0 }
      | none => defaultThumbnail) := by
  unfold buildEmbed
  cases news.image <;> by_cases h : firstImgSrc news.description.data = "" <;>
    simp [h]

end Rssbot
